import Mathlib

/-!
Verification of the Common Crawl columnar-index ingestion pipeline
(`columnar.py` and `columnar-s3.py`).

The scripts drive a storage engine with SQL.  We embed, faithfully to the
SQL text and the Python control flow, the relational operations the pipeline
performs: the crawl catalog, the idempotent file-list view, the two
range-partitioned ingestion deltas, the per-file ingestion loops with the
cooperative cancellation flag, the schema-evolution step, the table-creation
seeds and the unified view.  All definitions are executable so that concrete
runs evaluate inside the kernel.

String comparison in the engine is lexicographic on character code points;
we embed it as an executable order on character lists (`ltChars`), since the
built-in order on `String` does not reduce in the kernel.
-/

namespace CCPipeline

/-! ### Lexicographic string order (SQL string comparison, `ORDER BY`, `BETWEEN`, `MAX`) -/

/-- Strict lexicographic order on character lists, by code point. -/
def ltChars : List Char → List Char → Bool
  | _, [] => false
  | [], _ :: _ => true
  | a :: as, b :: bs => Nat.blt a.toNat b.toNat || (a.toNat == b.toNat && ltChars as bs)

/-- SQL `<` on strings. -/
def strLt (a b : String) : Bool := ltChars a.data b.data

/-- SQL `<=` on strings (total order: `a <= b` iff not `b < a`). -/
def strLe (a b : String) : Bool := !(strLt b a)

lemma ltChars_irrefl : ∀ l : List Char, ltChars l l = false := by
  intro l
  induction l with
  | nil => rfl
  | cons a as ih =>
      have hb : a.toNat.blt a.toNat = false := by
        cases hb : a.toNat.blt a.toNat
        · rfl
        · exact absurd (Nat.blt_eq ▸ hb) (Nat.lt_irrefl _)
      simp [ltChars, ih, hb]

lemma ltChars_trans : ∀ a b c : List Char,
    ltChars a b = true → ltChars b c = true → ltChars a c = true := by
  intro a
  induction a with
  | nil =>
      intro b c hab hbc
      cases b with
      | nil => simp [ltChars] at hab
      | cons y ys =>
          cases c with
          | nil => simp [ltChars] at hbc
          | cons z zs => simp [ltChars]
  | cons x xs ih =>
      intro b c hab hbc
      cases b with
      | nil => simp [ltChars] at hab
      | cons y ys =>
          cases c with
          | nil => simp [ltChars] at hbc
          | cons z zs =>
              simp only [ltChars, Bool.or_eq_true, Bool.and_eq_true, Nat.blt_eq,
                beq_iff_eq] at hab hbc ⊢
              rcases hab with h1 | ⟨h1, h1'⟩
              · rcases hbc with h2 | ⟨h2, h2'⟩
                · exact Or.inl (Nat.lt_trans h1 h2)
                · exact Or.inl (h2 ▸ h1)
              · rcases hbc with h2 | ⟨h2, h2'⟩
                · exact Or.inl (h1 ▸ h2)
                · exact Or.inr ⟨h1.trans h2, ih ys zs h1' h2'⟩

lemma strLe_refl (a : String) : strLe a a = true := by
  simp [strLe, strLt, ltChars_irrefl]

lemma strLe_of_le_of_lt {a b c : String} (h1 : strLe a b = true) (h2 : strLt b c = true) :
    strLe a c = true := by
  simp only [strLe, strLt, Bool.not_eq_true'] at h1 ⊢
  by_contra hc
  simp only [Bool.not_eq_false] at hc
  have := ltChars_trans _ _ _ h2 hc
  simp [this] at h1

/-! ### Sorting (SQL `ORDER BY url`), deduplication (SQL `EXCEPT` is set difference) -/

/-- Insert into a sorted list (auxiliary for `sortUrls`). -/
def insertSorted (u : String) : List String → List String
  | [] => [u]
  | v :: rest => if strLe u v then u :: v :: rest else v :: insertSorted u rest

/-- Sort a list of strings ascending: embeds SQL `ORDER BY`. -/
def sortUrls : List String → List String
  | [] => []
  | u :: rest => insertSorted u (sortUrls rest)

lemma mem_insertSorted {x u : String} {l : List String} :
    x ∈ insertSorted u l ↔ x = u ∨ x ∈ l := by
  induction l with
  | nil => simp [insertSorted]
  | cons v rest ih =>
      by_cases h : strLe u v = true
      · rw [insertSorted, if_pos h]
        simp [List.mem_cons]
      · rw [insertSorted, if_neg h]
        simp only [List.mem_cons, ih]
        tauto

lemma mem_sortUrls {x : String} {l : List String} : x ∈ sortUrls l ↔ x ∈ l := by
  induction l with
  | nil => simp [sortUrls]
  | cons u rest ih => simp [sortUrls, mem_insertSorted, ih]

lemma insertSorted_ne_nil (u : String) (l : List String) : insertSorted u l ≠ [] := by
  cases l with
  | nil => simp [insertSorted]
  | cons v rest =>
      by_cases h : strLe u v = true <;> simp [insertSorted, h]

lemma sortUrls_eq_nil {l : List String} : sortUrls l = [] ↔ l = [] := by
  cases l with
  | nil => simp [sortUrls]
  | cons u rest =>
      simp only [sortUrls]
      exact ⟨fun h => absurd h (insertSorted_ne_nil u (sortUrls rest)), fun h => by simp at h⟩

/-- Distinct rows of a list (SQL `EXCEPT` operates on distinct rows). -/
def dedupUrls : List String → List String
  | [] => []
  | u :: rest => if (dedupUrls rest).contains u then dedupUrls rest else u :: dedupUrls rest

lemma mem_dedupUrls_forall (l : List String) : ∀ x, x ∈ dedupUrls l ↔ x ∈ l := by
  induction l with
  | nil => intro x; simp [dedupUrls]
  | cons u rest ih =>
      intro x
      by_cases h : (dedupUrls rest).contains u = true
      · rw [dedupUrls, if_pos h, ih x, List.mem_cons]
        have hu : u ∈ rest := (ih u).mp (List.mem_of_elem_eq_true h)
        constructor
        · exact Or.inr
        · rintro (rfl | hx)
          · exact hu
          · exact hx
      · rw [dedupUrls, if_neg h]
        simp [ih x]

lemma mem_dedupUrls {x : String} {l : List String} : x ∈ dedupUrls l ↔ x ∈ l :=
  mem_dedupUrls_forall l x

/-! ### Substring test (SQL `contains(url, ...)`) -/

/-- Whether `pat` occurs at the head of `s`. -/
def isPrefixChars : List Char → List Char → Bool
  | [], _ => true
  | _ :: _, [] => false
  | a :: as, b :: bs => a == b && isPrefixChars as bs

/-- Whether `pat` occurs anywhere in `s` (scans all suffixes). -/
def containsChars (pat : List Char) : List Char → Bool
  | [] => pat.isEmpty
  | c :: rest => isPrefixChars pat (c :: rest) || containsChars pat rest

/-- SQL `contains(s, pat)`. -/
def strContains (s pat : String) : Bool := containsChars pat.data s.data

/-! ### Crawl catalog (columnar.py lines 57-89)

`crawl_info` is the metadata table minus the fixed deny-list; `crawl_ids` is
its `id` column `ORDER BY id`; `crawl_parquet_files` prefixes every path of
every per-crawl manifest with the download base.  The remote inputs
(`collinfo.json` contents and the per-crawl path lists) are parameters. -/

/-- The three batches excluded by the `WHERE id NOT IN (...)` clause (lines 60-64). -/
def denyList : List String := ["CC-MAIN-2012", "CC-MAIN-2009-2010", "CC-MAIN-2008-2009"]

/-- `crawl_info` ids: the fetched metadata ids minus the deny-list (lines 57-65). -/
def crawlInfoIds (collinfo : List String) : List String :=
  collinfo.filter (fun cid => !(denyList.contains cid))

/-- `crawl_ids`: `SELECT id FROM crawl_info ORDER BY id` (line 68). -/
def sortedIds (collinfo : List String) : List String := sortUrls (crawlInfoIds collinfo)

/-- URL prefix used by columnar.py (line 78). -/
def baseUrl : String := "https://data.commoncrawl.org/"

/-- `crawl_parquet_files`: every path listed by each crawl's manifest, prefixed
with the base URL (lines 76-89). -/
def catalogOf (collinfo : List String) (manifests : String → List String) : List String :=
  (sortedIds collinfo).flatMap (fun cid => (manifests cid).map (fun p => baseUrl ++ p))

/-- The join pattern `'/crawl=' || crawl_info.id || '/'` (lines 115, 163, 208). -/
def crawlTag (cid : String) : String := "/crawl=" ++ cid ++ "/"

/-- Ids of `crawl_info` whose tag occurs in the url: one row per match of the
`INNER JOIN crawl_info ON contains(url, '/crawl=' || crawl_info.id || '/')`. -/
def matchingIds (ids : List String) (u : String) : List String :=
  ids.filter (fun cid => strContains u (crawlTag cid))

/-! ### Idempotent file list and ingestion deltas (columnar.py lines 141-166, 205-211) -/

/-- SQL `EXCEPT`: distinct rows of the left side that do not occur on the right. -/
def exceptUrls (xs ys : List String) : List String :=
  (dedupUrls xs).filter (fun u => !(ys.contains u))

/-- The `idempotent_parquet_files` view (lines 141-151): the catalog minus the
absorbed-file manifests of both destination tables.  It is a view, so each
delta query re-evaluates it against the current manifests. -/
def idempotentParquetFiles (catalog oldFiles newFiles : List String) : List String :=
  exceptUrls (exceptUrls catalog oldFiles) newFiles

/-- `WHERE id BETWEEN 'CC-MAIN-2013-20' AND 'CC-MAIN-2021-43'` (line 164). -/
def inOldRange (cid : String) : Bool :=
  strLe "CC-MAIN-2013-20" cid && strLe cid "CC-MAIN-2021-43"

/-- `WHERE id >= 'CC-MAIN-2021-49'` (line 209). -/
def inNewRange (cid : String) : Bool := strLe "CC-MAIN-2021-49" cid

/-- A delta query (lines 160-166 and 205-211): the idempotent view joined with
`crawl_info` on the tag containment, filtered by the id range, `ORDER BY url`.
The join emits one row per matching id. -/
def deltaRows (idem ids : List String) (rangeP : String → Bool) : List String :=
  sortUrls (idem.flatMap (fun u => ((matchingIds ids u).filter rangeP).map (fun _ => u)))

/-! ### Ingestion loops with cancellation (columnar.py lines 30-38, 172-240)

The cancellation flag is set at most once by the signal handler and only ever
flips from false to true.  We model an execution by the number of flag reads
that happen before the flag first reads true (`cancelFrom = some k`: the k-th
and all later reads return true; `none`: the flag never reads true).  Each
per-file success or failure of `ducklake_add_data_files` is given by the
oracle `addOk`. -/

/-- The value of the shutdown flag at its `c`-th read. -/
def flagAt (cancelFrom : Option Nat) (c : Nat) : Bool :=
  match cancelFrom with
  | none => false
  | some k => Nat.ble k c

/-- `ducklake_list_files` state gained by a successful add: the engine records
the data file once. -/
def insertUrl (m : List String) (u : String) : List String :=
  if m.contains u then m else m ++ [u]

/-- Result of one ingestion loop. -/
structure Phase where
  manifest : List String
  ctr : Nat
  attempts : List (String × Bool)
  warnings : List String
  stopped : Bool
deriving DecidableEq

/-- One ingestion loop (lines 172-191 for OLD with `allow_missing => true`,
lines 217-235 for NEW without it): before each file read the flag and break if
set; otherwise call `ducklake_add_data_files`; on failure print a warning
naming the file and continue.  `attempts` records each add call together with
its allow-missing flag; `warnings` records the files whose add failed. -/
def ingestLoop (cancelFrom : Option Nat) (addOk : String → Bool) (allowMissing : Bool) :
    List String → List String → Nat → List (String × Bool) → List String → Phase
  | [], m, c, att, w => ⟨m, c, att, w, false⟩
  | u :: rest, m, c, att, w =>
    if flagAt cancelFrom c then ⟨m, c + 1, att, w, true⟩
    else if addOk u then
      ingestLoop cancelFrom addOk allowMissing rest (insertUrl m u) (c + 1)
        (att ++ [(u, allowMissing)]) w
    else
      ingestLoop cancelFrom addOk allowMissing rest m (c + 1)
        (att ++ [(u, allowMissing)]) (w ++ [u])

/-- Destination state: the absorbed-file manifests of the two tables. -/
structure St where
  oldM : List String
  newM : List String

/-- Observable outcome of one run of the script. -/
structure RunResult where
  oldM : List String
  newM : List String
  attemptsOld : List (String × Bool)
  attemptsNew : List (String × Bool)
  warnings : List String
  viewUpdated : Bool
  exitCode : Nat
deriving DecidableEq

/-- `parquet_files_2013_2021` (lines 160-166), against the current manifests. -/
def oldDeltaOf (collinfo : List String) (manifests : String → List String)
    (oldM newM : List String) : List String :=
  deltaRows (idempotentParquetFiles (catalogOf collinfo manifests) oldM newM)
    (crawlInfoIds collinfo) inOldRange

/-- `parquet_files_2021_forward` (lines 205-211), against the current manifests. -/
def newDeltaOf (collinfo : List String) (manifests : String → List String)
    (oldM newM : List String) : List String :=
  deltaRows (idempotentParquetFiles (catalogOf collinfo manifests) oldM newM)
    (crawlInfoIds collinfo) inNewRange

/-- The OLD-destination ingestion phase (lines 172-191): loop over the OLD
delta with `allow_missing => true`, starting from flag read 0. -/
def oldPhase (collinfo : List String) (manifests : String → List String)
    (addOk : String → Bool) (cancelFrom : Option Nat) (s : St) : Phase :=
  ingestLoop cancelFrom addOk true (oldDeltaOf collinfo manifests s.oldM s.newM) s.oldM 0 [] []

/-- One run of `main` after the tables exist (columnar.py lines 139-254):
compute the OLD delta against the live view and ingest it; if the flag is set
exit 0 (lines 193-196); recompute the NEW delta against the updated manifests
and ingest it strictly; if the flag is set exit 0 (lines 237-240); otherwise
`CREATE OR REPLACE` the unified view (lines 246-254) and exit 0. -/
def runPipeline (collinfo : List String) (manifests : String → List String)
    (addOk : String → Bool) (cancelFrom : Option Nat) (s : St) : RunResult :=
  let p1 := oldPhase collinfo manifests addOk cancelFrom s
  if flagAt cancelFrom p1.ctr then
    ⟨p1.manifest, s.newM, p1.attempts, [], p1.warnings, false, 0⟩
  else
    let p2 := ingestLoop cancelFrom addOk false
      (newDeltaOf collinfo manifests p1.manifest s.newM) s.newM (p1.ctr + 1) [] []
    if flagAt cancelFrom p2.ctr then
      ⟨p1.manifest, p2.manifest, p1.attempts, p2.attempts, p1.warnings ++ p2.warnings, false, 0⟩
    else
      ⟨p1.manifest, p2.manifest, p1.attempts, p2.attempts, p1.warnings ++ p2.warnings, true, 0⟩

/-- The oracle of a run in which every file addition succeeds. -/
def alwaysOk : String → Bool := fun _ => true

/-- An uninterrupted run with no per-file failures. -/
def runOk (collinfo : List String) (manifests : String → List String) (s : St) : RunResult :=
  runPipeline collinfo manifests alwaysOk none s

/-! ### Schema evolution (columnar.py lines 126-137, columnar-s3.py lines 148-162) -/

/-- A table column; `ALTER TABLE ... ADD COLUMN c VARCHAR` adds a nullable
VARCHAR column. -/
structure Column where
  name : String
  typ : String
  nullable : Bool
deriving DecidableEq

/-- The loop list of columnar.py line 134. -/
def requiredCols : List String := ["content_languages", "content_charset", "fetch_redirect"]

/-- Python `str.lower()`, character by character. -/
def toLowerStr (s : String) : String := ⟨s.data.map Char.toLower⟩

/-- `{row[0].lower() for row in existing_columns}` (line 131). -/
def lowerNames (cols : List Column) : List String := cols.map (fun c => toLowerStr c.name)

/-- Case-insensitive column presence. -/
def hasColCI (cols : List Column) (c : String) : Bool :=
  cols.any (fun col => toLowerStr col.name == c)

/-- columnar.py lines 128-137: the existing lower-cased name set is computed
once; each required column absent from it is appended as a nullable VARCHAR. -/
def schemaEvolution (cols : List Column) : List Column :=
  let existing := lowerNames cols
  requiredCols.foldl
    (fun acc c => if existing.contains c then acc else acc ++ [⟨c, "VARCHAR", true⟩]) cols

/-- columnar-s3.py lines 150-162: same inspection, but only `content_charset`
and `fetch_redirect` are ensured. -/
def schemaEvolutionS3 (cols : List Column) : List Column :=
  let existing := lowerNames cols
  let cols1 :=
    if existing.contains "content_charset" then cols
    else cols ++ [⟨"content_charset", "VARCHAR", true⟩]
  if existing.contains "fetch_redirect" then cols1
  else cols1 ++ [⟨"fetch_redirect", "VARCHAR", true⟩]

/-! ### Table creation seeds (columnar.py lines 95-124) -/

/-- SQL `MAX(url)` over a url list. -/
def maxUrl : List String → Option String
  | [] => none
  | u :: rest =>
    match maxUrl rest with
    | none => some u
    | some m => some (if strLt m u then u else m)

/-- `SELECT MAX(url) FROM crawl_parquet_files` (lines 99-102): the seed of
`CC_MAIN_2021_AND_FORWARD`. -/
def newestParquetFile (catalog : List String) : Option String := maxUrl catalog

/-- The join-and-where of lines 112-117: rows of the catalog joined with
`crawl_info` on tag containment, restricted to `crawl_info.id = 'CC-MAIN-2021-43'`. -/
def oldSeedPred (ids : List String) (u : String) : Bool :=
  ids.any (fun cid => cid == "CC-MAIN-2021-43" && strContains u (crawlTag cid))

/-- `SELECT MAX(url) ... WHERE crawl_info.id = 'CC-MAIN-2021-43'` (lines
112-117): the seed of `CC_MAIN_2013_TO_2021`. -/
def newestParquetFileOld (catalog ids : List String) : Option String :=
  maxUrl (catalog.filter (oldSeedPred ids))

/-- A destination table: its column list and its number of rows. -/
structure TableT where
  cols : List Column
  rowsCount : Nat
deriving DecidableEq

/-- `CREATE TABLE IF NOT EXISTS ... AS FROM read_parquet(seed) WITH NO DATA`
(lines 105-109 and 120-124): when the table does not yet exist it is created
with the seed file's schema and zero rows. -/
def createTableIfNotExists (existing : Option TableT) (schemaOf : String → List Column)
    (seed : Option String) : Option TableT :=
  match existing with
  | some t => some t
  | none => seed.map (fun u => ⟨schemaOf u, 0⟩)

/-- Modelled from the spec: section 4.5 seeds the OLD table from "the maximal
file path's schema among batches strictly before the boundary"; this follows
the spec's words (all catalog files joined to a non-deny-listed batch id
lexicographically below the boundary id `CC-MAIN-2021-49`), for comparison
with `newestParquetFileOld`, which is what the code computes. -/
def specOldEpochSeed (catalog ids : List String) : Option String :=
  maxUrl (catalog.filter
    (fun u => ids.any (fun cid => strLt cid "CC-MAIN-2021-49" && strContains u (crawlTag cid))))

/-! ### The unified view (columnar.py lines 246-254)

`CREATE OR REPLACE VIEW commoncrawl.archives AS SELECT * FROM
CC_MAIN_2021_AND_FORWARD UNION ALL BY NAME SELECT * REPLACE
(fetch_time::TIMESTAMPTZ AS fetch_time) FROM CC_MAIN_2013_TO_2021`. -/

/-- An SQL value as far as the view is concerned.  `vts` is a TIMESTAMP
without time zone carrying its literal; `vtstz` is a TIMESTAMPTZ carrying the
UTC instant's literal (rendered with a `+00` suffix). -/
inductive Val where
  | vnull : Val
  | vstr : String → Val
  | vts : String → Val
  | vtstz : String → Val
deriving DecidableEq

/-- A row: named column values. -/
abbrev Row : Type := List (String × Val)

/-- `fetch_time::TIMESTAMPTZ`.  The OLD table's `fetch_time` column has type
TIMESTAMP, so only naive timestamps (or NULL) occur; with the session time
zone at its UTC default the cast reinterprets the naive instant as UTC. -/
def castTsTz : Val → Val
  | Val.vts s => Val.vtstz s
  | v => v

/-- `SELECT * REPLACE (f(c) AS c)`: rewrite one named column of a row. -/
def replaceCol (r : Row) (c : String) (f : Val → Val) : Row :=
  r.map (fun p => if p.1 == c then (p.1, f p.2) else p)

/-- Value of column `c` in a row (`NULL` when absent, as `UNION ALL BY NAME`
fills missing columns with NULL). -/
def rowGet (r : Row) (c : String) : Val :=
  match r.find? (fun p => p.1 == c) with
  | some p => p.2
  | none => Val.vnull

/-- Project a row onto an output column list, by name. -/
def alignRow (cols : List String) (r : Row) : Row :=
  cols.map (fun c => (c, rowGet r c))

/-- `UNION ALL BY NAME`: output columns are the left table's columns followed
by the right table's new ones; every row is aligned to them by name, not by
position. -/
def unionAllByName (colsA colsB : List String) (a b : List Row) : List Row :=
  let cols := colsA ++ colsB.filter (fun c => !(colsA.contains c))
  (a ++ b).map (alignRow cols)

/-- The `commoncrawl.archives` view (lines 246-254): NEW's rows unioned by
name with OLD's rows after casting OLD's `fetch_time` to TIMESTAMPTZ. -/
def archivesView (colsNew colsOld : List String) (newRows oldRows : List Row) : List Row :=
  unionAllByName colsNew colsOld newRows
    (oldRows.map (fun r => replaceCol r "fetch_time" castTsTz))

/-- Rows of the unified view as a function of the two manifests, given the
per-file row contents `fileRows`. -/
def unifiedRows (fileRows : String → List Row) (colsNew colsOld : List String)
    (oldM newM : List String) : List Row :=
  archivesView colsNew colsOld (newM.flatMap fileRows) (oldM.flatMap fileRows)

/-! ### Per-file addition with engine-level retry (columnar.py lines 47-51, 181-191)

The scripts contain no retry loop of their own: lines 49-51 configure the
engine's HTTP retry (`SET http_retries = 1000`, a backoff factor and a base
wait), and lines 181-191 wrap the single add call in try/except, logging a
warning and moving on when it raises.  We embed the per-file behaviour: the
engine retries a throttled attempt while its retry budget lasts, waiting
between attempts; a non-retryable failure or an exhausted budget surfaces as
an exception, which the script turns into a skip. -/

/-- Outcome of one remote attempt of the engine. -/
inductive AttemptOutcome where
  | throttled : AttemptOutcome
  | ok : AttemptOutcome
  | failedOther : AttemptOutcome
deriving DecidableEq

/-- Terminal per-file state for the run. -/
inductive FileOutcome where
  | absorbed : FileOutcome
  | skipped : FileOutcome
deriving DecidableEq

/-- `SET http_retries = 1000` (line 49). -/
def httpRetries : Nat := 1000

/-- Engine retry loop: attempt `i` with `budget` retries left.  Returns
whether the call succeeded and how many backoff waits happened. -/
def engineAdd (outcomes : Nat → AttemptOutcome) : Nat → Nat → Bool × Nat
  | i, budget =>
    match outcomes i with
    | AttemptOutcome.ok => (true, 0)
    | AttemptOutcome.failedOther => (false, 0)
    | AttemptOutcome.throttled =>
      match budget with
      | 0 => (false, 0)
      | b + 1 =>
        let r := engineAdd outcomes (i + 1) b
        (r.1, r.2 + 1)

/-- Lines 181-191: one `ducklake_add_data_files` call per file; if it raises
(after the engine's retries) the file is warned about and skipped. -/
def processFile (outcomes : Nat → AttemptOutcome) : FileOutcome × Nat :=
  let r := engineAdd outcomes 0 httpRetries
  (if r.1 then FileOutcome.absorbed else FileOutcome.skipped, r.2)

/-! ### Membership lemmas for the relational operations -/

lemma mem_insertUrl {x u : String} {m : List String} :
    x ∈ insertUrl m u ↔ x ∈ m ∨ x = u := by
  by_cases h : m.contains u = true
  · rw [insertUrl, if_pos h]
    have hu : u ∈ m := List.mem_of_elem_eq_true h
    constructor
    · exact Or.inl
    · rintro (hx | rfl)
      · exact hx
      · exact hu
  · rw [insertUrl, if_neg h]
    simp [List.mem_append]

lemma mem_exceptUrls {x : String} {xs ys : List String} :
    x ∈ exceptUrls xs ys ↔ x ∈ xs ∧ x ∉ ys := by
  simp only [exceptUrls, List.mem_filter, mem_dedupUrls, Bool.not_eq_true']
  constructor
  · rintro ⟨hx, hc⟩
    refine ⟨hx, fun hy => ?_⟩
    have he : ys.contains x = true := List.elem_eq_true_of_mem hy
    rw [he] at hc
    cases hc
  · rintro ⟨hx, hy⟩
    refine ⟨hx, ?_⟩
    cases hc : ys.contains x
    · rfl
    · exact absurd (List.mem_of_elem_eq_true hc) hy

lemma mem_idempotent {x : String} {catalog a b : List String} :
    x ∈ idempotentParquetFiles catalog a b ↔ x ∈ catalog ∧ x ∉ a ∧ x ∉ b := by
  simp only [idempotentParquetFiles, mem_exceptUrls]
  tauto

lemma mem_deltaRows {u : String} {idem ids : List String} {rangeP : String → Bool} :
    u ∈ deltaRows idem ids rangeP ↔
      u ∈ idem ∧ ∃ cid ∈ ids, strContains u (crawlTag cid) = true ∧ rangeP cid = true := by
  simp only [deltaRows, mem_sortUrls, List.mem_flatMap, List.mem_map, List.mem_filter,
    matchingIds]
  constructor
  · rintro ⟨v, hv, cid, ⟨⟨hcid, htag⟩, hp⟩, rfl⟩
    exact ⟨hv, cid, hcid, htag, hp⟩
  · rintro ⟨hu, cid, hcid, htag, hp⟩
    exact ⟨u, hu, cid, ⟨⟨hcid, htag⟩, hp⟩, rfl⟩

/-! ### Characterizations of the ingestion loop -/

lemma flagAt_none (c : Nat) : flagAt none c = false := rfl

lemma flagAt_mono {cf : Option Nat} {c c' : Nat} (h : flagAt cf c = true) (hc : c ≤ c') :
    flagAt cf c' = true := by
  cases cf with
  | none => simp [flagAt] at h
  | some k =>
      simp only [flagAt, Nat.ble_eq] at h ⊢
      omega

lemma ingestLoop_none (addOk : String → Bool) (am : Bool) :
    ∀ (files m : List String) (c : Nat) (att : List (String × Bool)) (w : List String),
      ingestLoop none addOk am files m c att w =
        ⟨files.foldl (fun acc u => if addOk u then insertUrl acc u else acc) m,
         c + files.length,
         att ++ files.map (fun u => (u, am)),
         w ++ files.filter (fun u => !(addOk u)),
         false⟩ := by
  intro files
  induction files with
  | nil => intro m c att w; simp [ingestLoop]
  | cons u rest ih =>
      intro m c att w
      rw [ingestLoop]
      rw [if_neg (by simp [flagAt_none])]
      by_cases h : addOk u = true
      · rw [if_pos h, ih]
        simp [h, List.append_assoc]
        omega
      · rw [if_neg h, ih]
        have h' : addOk u = false := by
          cases hx : addOk u
          · rfl
          · exact absurd hx h
        simp [h', List.append_assoc]
        omega

lemma mem_foldl_insert (addOk : String → Bool) :
    ∀ (files m : List String) (x : String),
      x ∈ files.foldl (fun acc u => if addOk u then insertUrl acc u else acc) m ↔
        x ∈ m ∨ (x ∈ files ∧ addOk x = true) := by
  intro files
  induction files with
  | nil => intro m x; simp
  | cons u rest ih =>
      intro m x
      rw [List.foldl_cons, ih]
      by_cases h : addOk u = true
      · rw [if_pos h, mem_insertUrl]
        constructor
        · rintro ((hm | rfl) | hr)
          · exact Or.inl hm
          · exact Or.inr ⟨List.mem_cons_self _ _, h⟩
          · exact Or.inr ⟨List.mem_cons_of_mem _ hr.1, hr.2⟩
        · rintro (hm | ⟨hx, hok⟩)
          · exact Or.inl (Or.inl hm)
          · rcases List.mem_cons.mp hx with rfl | hr
            · exact Or.inl (Or.inr rfl)
            · exact Or.inr ⟨hr, hok⟩
      · rw [if_neg h]
        constructor
        · rintro (hm | hr)
          · exact Or.inl hm
          · exact Or.inr ⟨List.mem_cons_of_mem _ hr.1, hr.2⟩
        · rintro (hm | ⟨hx, hok⟩)
          · exact Or.inl hm
          · rcases List.mem_cons.mp hx with rfl | hr
            · exact absurd hok h
            · exact Or.inr ⟨hr, hok⟩

lemma ingestLoop_stopped (cf : Option Nat) (addOk : String → Bool) (am : Bool) :
    ∀ (files m : List String) (c : Nat) (att : List (String × Bool)) (w : List String),
      (ingestLoop cf addOk am files m c att w).stopped = true →
      flagAt cf (ingestLoop cf addOk am files m c att w).ctr = true := by
  intro files
  induction files with
  | nil => intro m c att w h; simp [ingestLoop] at h
  | cons u rest ih =>
      intro m c att w h
      rw [ingestLoop] at h ⊢
      by_cases hf : flagAt cf c = true
      · rw [if_pos hf] at h ⊢
        exact flagAt_mono hf (Nat.le_succ c)
      · rw [if_neg hf] at h ⊢
        by_cases ha : addOk u = true
        · rw [if_pos ha] at h ⊢
          exact ih _ _ _ _ h
        · rw [if_neg ha] at h ⊢
          exact ih _ _ _ _ h

/-! ### The uninterrupted, failure-free run in closed form -/

lemma runOk_eq (collinfo : List String) (manifests : String → List String) (s : St) :
    runOk collinfo manifests s =
      ⟨(oldDeltaOf collinfo manifests s.oldM s.newM).foldl insertUrl s.oldM,
       (newDeltaOf collinfo manifests
           ((oldDeltaOf collinfo manifests s.oldM s.newM).foldl insertUrl s.oldM)
           s.newM).foldl insertUrl s.newM,
       (oldDeltaOf collinfo manifests s.oldM s.newM).map (fun u => (u, true)),
       (newDeltaOf collinfo manifests
           ((oldDeltaOf collinfo manifests s.oldM s.newM).foldl insertUrl s.oldM)
           s.newM).map (fun u => (u, false)),
       [], true, 0⟩ := by
  have hstep : (fun (acc : List String) (u : String) =>
      if alwaysOk u then insertUrl acc u else acc) = insertUrl := by
    funext acc u
    simp [alwaysOk]
  have hfil : ∀ l : List String, l.filter (fun u => !(alwaysOk u)) = [] := by
    intro l
    simp [alwaysOk]
  rw [runOk, runPipeline, oldPhase]
  rw [ingestLoop_none, hstep, hfil]
  rw [if_neg (by simp [flagAt_none])]
  rw [ingestLoop_none, hstep, hfil]
  rw [if_neg (by simp [flagAt_none])]
  simp

lemma mem_foldl_insertUrl :
    ∀ (files m : List String) (x : String),
      x ∈ files.foldl insertUrl m ↔ x ∈ m ∨ x ∈ files := by
  intro files
  induction files with
  | nil => intro m x; simp
  | cons u rest ih =>
      intro m x
      rw [List.foldl_cons, ih]
      simp only [mem_insertUrl, List.mem_cons]
      tauto

/-! ### `MAX(url)` characterization -/

lemma maxUrl_eq_none : ∀ {l : List String}, maxUrl l = none → l = [] := by
  intro l h
  cases l with
  | nil => rfl
  | cons u rest =>
      rw [maxUrl] at h
      cases hm : maxUrl rest with
      | none => rw [hm] at h; cases h
      | some m => rw [hm] at h; cases h

lemma maxUrl_spec : ∀ {l : List String} {m : String},
    maxUrl l = some m → m ∈ l ∧ ∀ u ∈ l, strLe u m = true := by
  intro l
  induction l with
  | nil => intro m h; cases h
  | cons u rest ih =>
      intro m h
      rw [maxUrl] at h
      cases hm : maxUrl rest with
      | none =>
          rw [hm] at h
          have hrest : rest = [] := maxUrl_eq_none hm
          cases h
          subst hrest
          refine ⟨List.mem_cons_self _ _, ?_⟩
          intro x hx
          rcases List.mem_cons.mp hx with rfl | hx'
          · exact strLe_refl x
          · cases hx'
      | some m0 =>
          rw [hm] at h
          dsimp only at h
          obtain ⟨hmem, hub⟩ := ih hm
          by_cases hlt : strLt m0 u = true
          · rw [if_pos hlt] at h
            cases h
            refine ⟨List.mem_cons_self _ _, ?_⟩
            intro x hx
            rcases List.mem_cons.mp hx with rfl | hx'
            · exact strLe_refl x
            · exact strLe_of_le_of_lt (hub x hx') hlt
          · rw [if_neg hlt] at h
            have hlt' : strLt m0 u = false := by
              cases hx : strLt m0 u
              · rfl
              · exact absurd hx hlt
            cases h
            refine ⟨List.mem_cons_of_mem _ hmem, ?_⟩
            intro x hx
            rcases List.mem_cons.mp hx with rfl | hx'
            · simp [strLe, hlt']
            · exact hub x hx'

/-! ### Deltas of the second run are empty -/

lemma second_old_delta_nil (collinfo : List String) (manifests : String → List String) :
    oldDeltaOf collinfo manifests
      ((oldDeltaOf collinfo manifests [] []).foldl insertUrl [])
      ((newDeltaOf collinfo manifests
          ((oldDeltaOf collinfo manifests [] []).foldl insertUrl []) []).foldl insertUrl [])
      = [] := by
  rw [List.eq_nil_iff_forall_not_mem]
  intro u hu
  rw [oldDeltaOf, mem_deltaRows, mem_idempotent] at hu
  obtain ⟨⟨hcat, hA, hB⟩, cid, hcid, htag, hold⟩ := hu
  apply hA
  rw [mem_foldl_insertUrl]
  refine Or.inr ?_
  rw [oldDeltaOf, mem_deltaRows, mem_idempotent]
  exact ⟨⟨hcat, List.not_mem_nil u, List.not_mem_nil u⟩, cid, hcid, htag, hold⟩

lemma second_new_delta_nil (collinfo : List String) (manifests : String → List String) :
    newDeltaOf collinfo manifests
      ((oldDeltaOf collinfo manifests [] []).foldl insertUrl [])
      ((newDeltaOf collinfo manifests
          ((oldDeltaOf collinfo manifests [] []).foldl insertUrl []) []).foldl insertUrl [])
      = [] := by
  rw [List.eq_nil_iff_forall_not_mem]
  intro u hu
  rw [newDeltaOf, mem_deltaRows, mem_idempotent] at hu
  obtain ⟨⟨hcat, hA, hB⟩, cid, hcid, htag, hnew⟩ := hu
  apply hB
  rw [mem_foldl_insertUrl]
  refine Or.inr ?_
  rw [newDeltaOf, mem_deltaRows, mem_idempotent]
  exact ⟨⟨hcat, hA, List.not_mem_nil u⟩, cid, hcid, htag, hnew⟩

/-- The uninterrupted run with a general add oracle, in closed form. -/
lemma runPipeline_none_eq (collinfo : List String) (manifests : String → List String)
    (addOk : String → Bool) (s : St) :
    runPipeline collinfo manifests addOk none s =
      ⟨(oldPhase collinfo manifests addOk none s).manifest,
       (newDeltaOf collinfo manifests (oldPhase collinfo manifests addOk none s).manifest
           s.newM).foldl (fun acc u => if addOk u then insertUrl acc u else acc) s.newM,
       (oldPhase collinfo manifests addOk none s).attempts,
       (newDeltaOf collinfo manifests (oldPhase collinfo manifests addOk none s).manifest
           s.newM).map (fun u => (u, false)),
       (oldPhase collinfo manifests addOk none s).warnings ++
         (newDeltaOf collinfo manifests (oldPhase collinfo manifests addOk none s).manifest
             s.newM).filter (fun u => !(addOk u)),
       true, 0⟩ := by
  simp only [runPipeline, flagAt_none, Bool.false_eq_true, if_false]
  rw [ingestLoop_none]
  simp

/-! ### Concrete catalogs for counterexamples and witnesses -/

/-- A metadata catalog whose only batch id falls in the gap between the OLD
range's upper bound `CC-MAIN-2021-43` and the NEW range's bound
`CC-MAIN-2021-49`. -/
def gapCollinfo : List String := ["CC-MAIN-2021-44"]

/-- One file for the gap batch. -/
def gapManifests : String → List String :=
  fun cid => if cid == "CC-MAIN-2021-44" then ["c/crawl=CC-MAIN-2021-44/p"] else []

/-- The gap batch's file url. -/
def gapUrl : String := baseUrl ++ "c/crawl=CC-MAIN-2021-44/p"

/-- A second gap-batch catalog, for the completeness counterexample. -/
def gap3Collinfo : List String := ["CC-MAIN-2021-45"]

/-- One file for the second gap batch. -/
def gap3Manifests : String → List String :=
  fun cid => if cid == "CC-MAIN-2021-45" then ["c/crawl=CC-MAIN-2021-45/p"] else []

/-- The second gap batch's file url. -/
def gap3Url : String := baseUrl ++ "c/crawl=CC-MAIN-2021-45/p"

/-- A one-batch catalog inside the OLD range. -/
def oldWCollinfo : List String := ["CC-MAIN-2014-10"]

/-- One file for the OLD-range batch. -/
def oldWManifests : String → List String :=
  fun cid => if cid == "CC-MAIN-2014-10" then ["c/crawl=CC-MAIN-2014-10/p"] else []

/-- The OLD-range batch's file url. -/
def oldWUrl : String := baseUrl ++ "c/crawl=CC-MAIN-2014-10/p"

/-- A one-batch catalog inside the NEW range. -/
def newWCollinfo : List String := ["CC-MAIN-2022-05"]

/-- One file for the NEW-range batch. -/
def newWManifests : String → List String :=
  fun cid => if cid == "CC-MAIN-2022-05" then ["c/crawl=CC-MAIN-2022-05/p"] else []

/-- The NEW-range batch's file url. -/
def newWUrl : String := baseUrl ++ "c/crawl=CC-MAIN-2022-05/p"

/-- An OLD-range catalog used for the cancelled-run counterexample. -/
def c7Collinfo : List String := ["CC-MAIN-2016-07"]

/-- One file for it. -/
def c7Manifests : String → List String :=
  fun cid => if cid == "CC-MAIN-2016-07" then ["c/crawl=CC-MAIN-2016-07/p"] else []

/-- An OLD-range catalog used for the cancellation witness. -/
def c10Collinfo : List String := ["CC-MAIN-2017-04"]

/-- One file for it. -/
def c10Manifests : String → List String :=
  fun cid => if cid == "CC-MAIN-2017-04" then ["c/crawl=CC-MAIN-2017-04/p"] else []

/-! ### C1: idempotence of the full pipeline -/

/-- C1.  For every source catalog, a second uninterrupted, failure-free run
against the same catalog, starting from the state the first run (from empty
destinations) produced, absorbs zero additional files: both deltas are empty,
no add is attempted, no warning is emitted, and the destination manifests —
hence the replaced unified view — are unchanged. -/
theorem claim1_idempotence (collinfo : List String) (manifests : String → List String)
    (fileRows : String → List Row) (colsN colsO : List String) :
    runOk collinfo manifests
        ⟨(runOk collinfo manifests ⟨[], []⟩).oldM, (runOk collinfo manifests ⟨[], []⟩).newM⟩ =
      ⟨(runOk collinfo manifests ⟨[], []⟩).oldM, (runOk collinfo manifests ⟨[], []⟩).newM,
        [], [], [], true, 0⟩ ∧
    unifiedRows fileRows colsN colsO
        (runOk collinfo manifests
          ⟨(runOk collinfo manifests ⟨[], []⟩).oldM,
           (runOk collinfo manifests ⟨[], []⟩).newM⟩).oldM
        (runOk collinfo manifests
          ⟨(runOk collinfo manifests ⟨[], []⟩).oldM,
           (runOk collinfo manifests ⟨[], []⟩).newM⟩).newM =
      unifiedRows fileRows colsN colsO (runOk collinfo manifests ⟨[], []⟩).oldM
        (runOk collinfo manifests ⟨[], []⟩).newM := by
  have ho : (runOk collinfo manifests ⟨[], []⟩).oldM =
      (oldDeltaOf collinfo manifests [] []).foldl insertUrl [] := by
    rw [runOk_eq]
  have hn : (runOk collinfo manifests ⟨[], []⟩).newM =
      (newDeltaOf collinfo manifests
        ((oldDeltaOf collinfo manifests [] []).foldl insertUrl []) []).foldl insertUrl [] := by
    rw [runOk_eq]
  have h2 := runOk_eq collinfo manifests
    ⟨(oldDeltaOf collinfo manifests [] []).foldl insertUrl [],
     (newDeltaOf collinfo manifests
       ((oldDeltaOf collinfo manifests [] []).foldl insertUrl []) []).foldl insertUrl []⟩
  dsimp only at h2
  rw [second_old_delta_nil] at h2
  simp only [List.foldl_nil, List.map_nil] at h2
  rw [second_new_delta_nil] at h2
  simp only [List.foldl_nil, List.map_nil] at h2
  constructor
  · rw [ho, hn]
    exact h2
  · rw [ho, hn, h2]

/-! ### C2: routing -/

/-- C2 (amended).  For every catalog file: a file matched by a `crawl_info`
batch id inside the inclusive OLD window `CC-MAIN-2013-20 .. CC-MAIN-2021-43`
is absorbed into the OLD destination; a file matched by an id at or after
`CC-MAIN-2021-49` (the boundary batch included) and by no OLD-window id is
absorbed into the NEW destination; a file all of whose matching ids lie in
neither range is absorbed into neither destination. -/
theorem claim2_amended_routing (collinfo : List String) (manifests : String → List String)
    (u : String) (hu : u ∈ catalogOf collinfo manifests) :
    ((∃ cid ∈ crawlInfoIds collinfo, strContains u (crawlTag cid) = true ∧
        inOldRange cid = true) →
      u ∈ (runOk collinfo manifests ⟨[], []⟩).oldM) ∧
    ((∃ cid ∈ crawlInfoIds collinfo, strContains u (crawlTag cid) = true ∧
        inNewRange cid = true) →
      (∀ cid ∈ crawlInfoIds collinfo, strContains u (crawlTag cid) = true →
        inOldRange cid = false) →
      u ∈ (runOk collinfo manifests ⟨[], []⟩).newM) ∧
    ((∀ cid ∈ crawlInfoIds collinfo, strContains u (crawlTag cid) = true →
        inOldRange cid = false ∧ inNewRange cid = false) →
      u ∉ (runOk collinfo manifests ⟨[], []⟩).oldM ∧
      u ∉ (runOk collinfo manifests ⟨[], []⟩).newM) := by
  have ho : ∀ x, x ∈ (runOk collinfo manifests ⟨[], []⟩).oldM ↔
      x ∈ oldDeltaOf collinfo manifests [] [] := by
    intro x
    rw [runOk_eq]
    dsimp only
    rw [mem_foldl_insertUrl]
    simp
  have hn : ∀ x, x ∈ (runOk collinfo manifests ⟨[], []⟩).newM ↔
      x ∈ newDeltaOf collinfo manifests
        ((oldDeltaOf collinfo manifests [] []).foldl insertUrl []) [] := by
    intro x
    rw [runOk_eq]
    dsimp only
    rw [mem_foldl_insertUrl]
    simp
  refine ⟨?_, ?_, ?_⟩
  · rintro ⟨cid, hcid, htag, holdR⟩
    rw [ho, oldDeltaOf, mem_deltaRows, mem_idempotent]
    exact ⟨⟨hu, List.not_mem_nil u, List.not_mem_nil u⟩, cid, hcid, htag, holdR⟩
  · rintro ⟨cid, hcid, htag, hnewR⟩ hall
    rw [hn, newDeltaOf, mem_deltaRows, mem_idempotent]
    refine ⟨⟨hu, ?_, List.not_mem_nil u⟩, cid, hcid, htag, hnewR⟩
    rw [mem_foldl_insertUrl]
    rintro (h0 | hd)
    · exact List.not_mem_nil u h0
    · rw [oldDeltaOf, mem_deltaRows] at hd
      obtain ⟨-, cid', hcid', htag', holdR'⟩ := hd
      rw [hall cid' hcid' htag'] at holdR'
      cases holdR'
  · intro hall
    constructor
    · intro hO
      rw [ho, oldDeltaOf, mem_deltaRows] at hO
      obtain ⟨-, cid, hcid, htag, holdR⟩ := hO
      rw [(hall cid hcid htag).1] at holdR
      cases holdR
    · intro hN
      rw [hn, newDeltaOf, mem_deltaRows] at hN
      obtain ⟨-, cid, hcid, htag, hnewR⟩ := hN
      rw [(hall cid hcid htag).2] at hnewR
      cases hnewR

/-- C2 counterexample to the claim as stated.  The catalog batch
`CC-MAIN-2021-44` is lexicographically below the boundary `CC-MAIN-2021-49`,
so the claim requires its file to be absorbed into OLD; the code's OLD query
stops at `CC-MAIN-2021-43` and its NEW query starts at `CC-MAIN-2021-49`, so
after a full uninterrupted run the file is in neither destination. -/
theorem claim2_counterexample :
    strLt "CC-MAIN-2021-44" "CC-MAIN-2021-49" = true ∧
    "CC-MAIN-2021-44" ∈ crawlInfoIds gapCollinfo ∧
    gapUrl ∈ catalogOf gapCollinfo gapManifests ∧
    strContains gapUrl (crawlTag "CC-MAIN-2021-44") = true ∧
    gapUrl ∉ (runOk gapCollinfo gapManifests ⟨[], []⟩).oldM ∧
    gapUrl ∉ (runOk gapCollinfo gapManifests ⟨[], []⟩).newM := by decide

/-- C2 witness: the amended routing theorem applied to a concrete OLD-window
catalog. -/
theorem claim2_witness :
    oldWUrl ∈ catalogOf oldWCollinfo oldWManifests ∧
    oldWUrl ∈ (runOk oldWCollinfo oldWManifests ⟨[], []⟩).oldM :=
  ⟨by decide,
   (claim2_amended_routing oldWCollinfo oldWManifests oldWUrl (by decide)).1 (by decide)⟩

/-! ### C3: completeness -/

/-- C3 (amended).  After an uninterrupted, failure-free run from empty
destinations, every catalog file matched by a `crawl_info` batch id lying in
the OLD window or at/after the boundary appears in exactly one destination's
absorbed manifest; files matched only by ids in neither range (or by no id)
appear in neither. -/
theorem claim3_amended_completeness (collinfo : List String)
    (manifests : String → List String) (u : String)
    (hu : u ∈ catalogOf collinfo manifests)
    (hid : ∃ cid ∈ crawlInfoIds collinfo, strContains u (crawlTag cid) = true ∧
      (inOldRange cid = true ∨ inNewRange cid = true)) :
    (u ∈ (runOk collinfo manifests ⟨[], []⟩).oldM ∨
      u ∈ (runOk collinfo manifests ⟨[], []⟩).newM) ∧
    ¬(u ∈ (runOk collinfo manifests ⟨[], []⟩).oldM ∧
      u ∈ (runOk collinfo manifests ⟨[], []⟩).newM) := by
  have ho : ∀ x, x ∈ (runOk collinfo manifests ⟨[], []⟩).oldM ↔
      x ∈ oldDeltaOf collinfo manifests [] [] := by
    intro x
    rw [runOk_eq]
    dsimp only
    rw [mem_foldl_insertUrl]
    simp
  have hn : ∀ x, x ∈ (runOk collinfo manifests ⟨[], []⟩).newM ↔
      x ∈ newDeltaOf collinfo manifests
        ((oldDeltaOf collinfo manifests [] []).foldl insertUrl []) [] := by
    intro x
    rw [runOk_eq]
    dsimp only
    rw [mem_foldl_insertUrl]
    simp
  constructor
  · by_cases hex : ∃ cid ∈ crawlInfoIds collinfo,
        strContains u (crawlTag cid) = true ∧ inOldRange cid = true
    · obtain ⟨cid, hcid, htag, holdR⟩ := hex
      left
      rw [ho, oldDeltaOf, mem_deltaRows, mem_idempotent]
      exact ⟨⟨hu, List.not_mem_nil u, List.not_mem_nil u⟩, cid, hcid, htag, holdR⟩
    · have hall : ∀ cid ∈ crawlInfoIds collinfo, strContains u (crawlTag cid) = true →
          inOldRange cid = false := by
        intro cid hcid htag
        cases hx : inOldRange cid
        · rfl
        · exact absurd ⟨cid, hcid, htag, hx⟩ hex
      obtain ⟨cid, hcid, htag, hrange⟩ := hid
      have hnewR : inNewRange cid = true := by
        rcases hrange with h | h
        · rw [hall cid hcid htag] at h
          cases h
        · exact h
      right
      rw [hn, newDeltaOf, mem_deltaRows, mem_idempotent]
      refine ⟨⟨hu, ?_, List.not_mem_nil u⟩, cid, hcid, htag, hnewR⟩
      rw [mem_foldl_insertUrl]
      rintro (h0 | hd)
      · exact List.not_mem_nil u h0
      · rw [oldDeltaOf, mem_deltaRows] at hd
        obtain ⟨-, cid', hcid', htag', holdR'⟩ := hd
        rw [hall cid' hcid' htag'] at holdR'
        cases holdR'
  · rintro ⟨hO, hN⟩
    rw [hn, newDeltaOf, mem_deltaRows, mem_idempotent] at hN
    obtain ⟨⟨-, hA, -⟩, -⟩ := hN
    apply hA
    rw [mem_foldl_insertUrl]
    exact Or.inr ((ho u).mp hO)

/-- C3 counterexample to the claim as stated.  The file of the catalog batch
`CC-MAIN-2021-45` survives the deny-list, yet after a fully uninterrupted
failure-free run it appears in neither destination's manifest, not in exactly
one. -/
theorem claim3_counterexample :
    "CC-MAIN-2021-45" ∈ crawlInfoIds gap3Collinfo ∧
    gap3Url ∈ catalogOf gap3Collinfo gap3Manifests ∧
    strContains gap3Url (crawlTag "CC-MAIN-2021-45") = true ∧
    ¬(gap3Url ∈ (runOk gap3Collinfo gap3Manifests ⟨[], []⟩).oldM ∨
      gap3Url ∈ (runOk gap3Collinfo gap3Manifests ⟨[], []⟩).newM) := by decide

/-- C3 witness: the amended completeness theorem applied to a concrete
NEW-range catalog. -/
theorem claim3_witness :
    newWUrl ∈ catalogOf newWCollinfo newWManifests ∧
    ((newWUrl ∈ (runOk newWCollinfo newWManifests ⟨[], []⟩).oldM ∨
        newWUrl ∈ (runOk newWCollinfo newWManifests ⟨[], []⟩).newM) ∧
      ¬(newWUrl ∈ (runOk newWCollinfo newWManifests ⟨[], []⟩).oldM ∧
        newWUrl ∈ (runOk newWCollinfo newWManifests ⟨[], []⟩).newM)) :=
  ⟨by decide,
   claim3_amended_completeness newWCollinfo newWManifests newWUrl (by decide) (by decide)⟩

/-! ### C4: throttling retry -/

/-- C4 (amended).  The scripts delegate throttling retry to the engine's
configured HTTP retry (1000 retries with backoff waits between attempts);
within that budget, a throttling failure on the first two attempts followed
by success on the third yields exactly one ABSORBED outcome for the file,
with two backoff waits. -/
theorem claim4_amended_retry :
    processFile (fun n => if n < 2 then AttemptOutcome.throttled else AttemptOutcome.ok) =
      (FileOutcome.absorbed, 2) := by decide

set_option maxRecDepth 8000 in
/-- C4 counterexample to the claim as stated.  The claim says a throttled
file is retried indefinitely until it succeeds or cancellation is observed;
but a file that is throttled on every attempt exhausts the configured 1000
retries and reaches the terminal SKIPPED state after 1000 waits, with no
success and no cancellation involved. -/
theorem claim4_counterexample :
    processFile (fun _ => AttemptOutcome.throttled) = (FileOutcome.skipped, 1000) := by decide

/-! ### C5: schema superset -/

lemma contains_lowerNames (cols : List Column) (c : String) :
    (lowerNames cols).contains c = hasColCI cols c := by
  cases h : hasColCI cols c with
  | true =>
      rw [hasColCI, List.any_eq_true] at h
      obtain ⟨col, hcol, hbeq⟩ := h
      apply List.elem_eq_true_of_mem
      rw [lowerNames, List.mem_map]
      exact ⟨col, hcol, beq_iff_eq.mp hbeq⟩
  | false =>
      cases hc : (lowerNames cols).contains c with
      | false => rfl
      | true =>
          have hmem : c ∈ lowerNames cols := List.mem_of_elem_eq_true hc
          rw [lowerNames, List.mem_map] at hmem
          obtain ⟨col, hcol, heq⟩ := hmem
          have hcc : hasColCI cols c = true := by
            rw [hasColCI, List.any_eq_true]
            exact ⟨col, hcol, beq_iff_eq.mpr heq⟩
          rw [h] at hcc
          cases hcc

lemma schemaEvolution_eq (cols : List Column) :
    schemaEvolution cols = cols ++
      (requiredCols.filter (fun c => !(decide (c ∈ lowerNames cols)))).map
        (fun c => ⟨c, "VARCHAR", true⟩) := by
  by_cases h1 : "content_languages" ∈ lowerNames cols <;>
    by_cases h2 : "content_charset" ∈ lowerNames cols <;>
      by_cases h3 : "fetch_redirect" ∈ lowerNames cols <;>
        simp [schemaEvolution, requiredCols, h1, h2, h3, List.append_assoc]

lemma schemaEvolutionS3_eq (cols : List Column) :
    schemaEvolutionS3 cols = cols ++
      ((["content_charset", "fetch_redirect"].filter
        (fun c => !(decide (c ∈ lowerNames cols)))).map (fun c => ⟨c, "VARCHAR", true⟩)) := by
  by_cases h2 : "content_charset" ∈ lowerNames cols <;>
    by_cases h3 : "fetch_redirect" ∈ lowerNames cols <;>
      simp [schemaEvolutionS3, h2, h3, List.append_assoc]

lemma hasColCI_ensure (cols : List Column) (base : List String) (c : String)
    (hmem : c ∈ base) (hlow : (toLowerStr c == c) = true) :
    hasColCI (cols ++ (base.filter (fun x => !(decide (x ∈ lowerNames cols)))).map
      (fun x => ⟨x, "VARCHAR", true⟩)) c = true := by
  by_cases h : c ∈ lowerNames cols
  · have hc : hasColCI cols c = true := by
      rw [← contains_lowerNames]
      exact List.elem_eq_true_of_mem h
    rw [hasColCI, List.any_append, Bool.or_eq_true]
    exact Or.inl hc
  · rw [hasColCI, List.any_append, Bool.or_eq_true]
    right
    rw [List.any_eq_true]
    refine ⟨⟨c, "VARCHAR", true⟩, ?_, hlow⟩
    rw [List.mem_map]
    exact ⟨c, List.mem_filter.mpr ⟨hmem, by simp [h]⟩, rfl⟩

/-- C5 (amended).  After the HTTP-variant schema evolution (columnar.py) the
OLD table's column set contains, case-insensitively, all three required
late-added columns, and any of them that was absent beforehand has been added
as a nullable VARCHAR column; after the S3-variant schema evolution
(columnar-s3.py) only `content_charset` and `fetch_redirect` are ensured. -/
theorem claim5_amended_schema (cols : List Column) :
    hasColCI (schemaEvolution cols) "content_languages" = true ∧
    hasColCI (schemaEvolution cols) "content_charset" = true ∧
    hasColCI (schemaEvolution cols) "fetch_redirect" = true ∧
    (hasColCI cols "content_languages" = true ∨
      Column.mk "content_languages" "VARCHAR" true ∈ schemaEvolution cols) ∧
    (hasColCI cols "content_charset" = true ∨
      Column.mk "content_charset" "VARCHAR" true ∈ schemaEvolution cols) ∧
    (hasColCI cols "fetch_redirect" = true ∨
      Column.mk "fetch_redirect" "VARCHAR" true ∈ schemaEvolution cols) ∧
    hasColCI (schemaEvolutionS3 cols) "content_charset" = true ∧
    hasColCI (schemaEvolutionS3 cols) "fetch_redirect" = true := by
  rw [schemaEvolution_eq, schemaEvolutionS3_eq]
  refine ⟨?_, ?_, ?_, ?_, ?_, ?_, ?_, ?_⟩
  · exact hasColCI_ensure cols requiredCols _ (by decide) (by decide)
  · exact hasColCI_ensure cols requiredCols _ (by decide) (by decide)
  · exact hasColCI_ensure cols requiredCols _ (by decide) (by decide)
  · by_cases h : "content_languages" ∈ lowerNames cols
    · left
      rw [← contains_lowerNames]
      exact List.elem_eq_true_of_mem h
    · right
      rw [List.mem_append]
      right
      rw [List.mem_map]
      exact ⟨"content_languages", List.mem_filter.mpr ⟨by decide, by simp [h]⟩, rfl⟩
  · by_cases h : "content_charset" ∈ lowerNames cols
    · left
      rw [← contains_lowerNames]
      exact List.elem_eq_true_of_mem h
    · right
      rw [List.mem_append]
      right
      rw [List.mem_map]
      exact ⟨"content_charset", List.mem_filter.mpr ⟨by decide, by simp [h]⟩, rfl⟩
  · by_cases h : "fetch_redirect" ∈ lowerNames cols
    · left
      rw [← contains_lowerNames]
      exact List.elem_eq_true_of_mem h
    · right
      rw [List.mem_append]
      right
      rw [List.mem_map]
      exact ⟨"fetch_redirect", List.mem_filter.mpr ⟨by decide, by simp [h]⟩, rfl⟩
  · exact hasColCI_ensure cols _ _ (by decide) (by decide)
  · exact hasColCI_ensure cols _ _ (by decide) (by decide)

/-- An OLD-table schema that lacks all three late-added columns. -/
def ce5Cols : List Column :=
  [⟨"url", "VARCHAR", true⟩, ⟨"fetch_time", "TIMESTAMP", false⟩]

/-- C5 counterexample to the claim as stated.  On a pre-existing OLD schema
without `content_languages`, the S3-variant Schema Evolution Manager
(columnar-s3.py lines 156-162) adds the other two required columns but leaves
`content_languages` missing, so the column set does not contain all three. -/
theorem claim5_counterexample :
    hasColCI ce5Cols "content_languages" = false ∧
    hasColCI (schemaEvolutionS3 ce5Cols) "content_charset" = true ∧
    hasColCI (schemaEvolutionS3 ce5Cols) "fetch_redirect" = true ∧
    hasColCI (schemaEvolutionS3 ce5Cols) "content_languages" = false := by decide

/-! ### C6: unified view -/

/-- C6.  The published view is NEW's rows unioned by column name (not
position) with OLD's rows after casting OLD's `fetch_time` (TIMESTAMP) to
TIMESTAMPTZ: for an OLD row with `fetch_time` 2019-01-01 00:00:00 and a NEW
row with `fetch_time` 2022-06-01 00:00:00+00, the view returns exactly both
rows, with both `fetch_time` values in the timezone-aware representation and
OLD's value reinterpreted as UTC; the OLD row's columns, listed in a
different order, are aligned by name. -/
theorem claim6_view_correctness :
    archivesView ["url", "fetch_time"] ["fetch_time", "url"]
        [[("url", Val.vstr "new-file"), ("fetch_time", Val.vtstz "2022-06-01 00:00:00")]]
        [[("fetch_time", Val.vts "2019-01-01 00:00:00"), ("url", Val.vstr "old-file")]] =
      [[("url", Val.vstr "new-file"), ("fetch_time", Val.vtstz "2022-06-01 00:00:00")],
       [("url", Val.vstr "old-file"), ("fetch_time", Val.vtstz "2019-01-01 00:00:00")]] := by
  decide

/-! ### C7: view recomputation -/

/-- C7 (amended).  On every run in which cancellation is never observed the
unified view is replaced before the process exits with code 0; a run in which
cancellation is observed exits with code 0 without recomputing the view (see
the counterexample). -/
theorem claim7_amended_view (collinfo : List String) (manifests : String → List String)
    (addOk : String → Bool) (s : St) :
    (runPipeline collinfo manifests addOk none s).viewUpdated = true ∧
    (runPipeline collinfo manifests addOk none s).exitCode = 0 := by
  rw [runPipeline_none_eq]
  exact ⟨rfl, rfl⟩

/-- C7 counterexample to the claim as stated.  A run cancelled mid-ingestion
(the flag is observed before the first OLD file) exits with code 0 *without*
recomputing the unified view, contradicting "recomputed on every run —
including a run cancelled mid-ingestion". -/
theorem claim7_counterexample :
    (oldPhase c7Collinfo c7Manifests alwaysOk (some 0) ⟨[], []⟩).stopped = true ∧
    (runPipeline c7Collinfo c7Manifests alwaysOk (some 0) ⟨[], []⟩).viewUpdated = false ∧
    (runPipeline c7Collinfo c7Manifests alwaysOk (some 0) ⟨[], []⟩).exitCode = 0 := by decide

/-! ### C8: table creation seeds -/

/-- C8 (amended).  When a destination table does not yet exist it is created
with zero rows; the NEW table's schema is that of the lexicographically
maximal file path of the whole catalog, and the OLD table's schema is that of
the maximal file path among the files of the batch `CC-MAIN-2021-43` (not
among all batches strictly before the boundary). -/
theorem claim8_amended_seeds (catalog ids : List String) (schemaOf : String → List Column)
    (m mo : String)
    (hN : newestParquetFile catalog = some m)
    (hO : newestParquetFileOld catalog ids = some mo) :
    (m ∈ catalog ∧ (∀ u ∈ catalog, strLe u m = true) ∧
      createTableIfNotExists none schemaOf (newestParquetFile catalog) =
        some ⟨schemaOf m, 0⟩) ∧
    (mo ∈ catalog ∧ oldSeedPred ids mo = true ∧
      (∀ u ∈ catalog, oldSeedPred ids u = true → strLe u mo = true) ∧
      createTableIfNotExists none schemaOf (newestParquetFileOld catalog ids) =
        some ⟨schemaOf mo, 0⟩) := by
  rw [newestParquetFile] at hN
  rw [newestParquetFileOld] at hO
  obtain ⟨hmem, hub⟩ := maxUrl_spec hN
  obtain ⟨hmemO, hubO⟩ := maxUrl_spec hO
  have hmO := List.mem_filter.mp hmemO
  refine ⟨⟨hmem, hub, ?_⟩, hmO.1, hmO.2, ?_, ?_⟩
  · rw [newestParquetFile, hN]
    rfl
  · intro u hu hpred
    exact hubO u (List.mem_filter.mpr ⟨hu, hpred⟩)
  · rw [newestParquetFileOld, hO]
    rfl

/-- Seed catalog for the C8 witness: two well-formed files, one in the
`CC-MAIN-2021-43` batch and one in the boundary batch. -/
def seedCatalog : List String :=
  [baseUrl ++ "c/crawl=CC-MAIN-2021-43/p", baseUrl ++ "d/crawl=CC-MAIN-2021-49/p"]

/-- Its crawl ids. -/
def seedIds : List String := ["CC-MAIN-2021-43", "CC-MAIN-2021-49"]

/-- A concrete schema oracle distinguishing distinct seed files. -/
def seedSchemaOf : String → List Column := fun u => [⟨u, "VARCHAR", true⟩]

/-- The maximal url of `seedCatalog`. -/
def seedNewUrl : String := baseUrl ++ "d/crawl=CC-MAIN-2021-49/p"

/-- The maximal `CC-MAIN-2021-43` url of `seedCatalog`. -/
def seedOldUrl : String := baseUrl ++ "c/crawl=CC-MAIN-2021-43/p"

/-- C8 witness: the amended seeding theorem applied to the concrete catalog. -/
theorem claim8_witness :
    newestParquetFile seedCatalog = some seedNewUrl ∧
    newestParquetFileOld seedCatalog seedIds = some seedOldUrl ∧
    seedNewUrl ∈ seedCatalog ∧
    createTableIfNotExists none seedSchemaOf (newestParquetFile seedCatalog) =
      some ⟨seedSchemaOf seedNewUrl, 0⟩ ∧
    seedOldUrl ∈ seedCatalog ∧
    oldSeedPred seedIds seedOldUrl = true ∧
    createTableIfNotExists none seedSchemaOf (newestParquetFileOld seedCatalog seedIds) =
      some ⟨seedSchemaOf seedOldUrl, 0⟩ := by
  have h := claim8_amended_seeds seedCatalog seedIds seedSchemaOf seedNewUrl seedOldUrl
    (by decide) (by decide)
  exact ⟨by decide, by decide, h.1.1, h.1.2.2, h.2.1, h.2.2.1, h.2.2.2.2⟩

/-- Catalog for the C8 counterexample: a file of the earlier batch
`CC-MAIN-2020-05` whose path sorts above every `CC-MAIN-2021-43` path. -/
def ceSeedCatalog : List String :=
  [baseUrl ++ "z/crawl=CC-MAIN-2020-05/p", baseUrl ++ "c/crawl=CC-MAIN-2021-43/p"]

/-- Its crawl ids. -/
def ceSeedIds : List String := ["CC-MAIN-2020-05", "CC-MAIN-2021-43"]

/-- C8 counterexample to the claim as stated.  Among batches strictly before
the boundary the maximal file path belongs to `CC-MAIN-2020-05`, but the code
seeds the OLD table from the maximal path of the batch `CC-MAIN-2021-43`
alone, so the created table's schema differs from the one the claim
prescribes. -/
theorem claim8_counterexample :
    strLt "CC-MAIN-2020-05" "CC-MAIN-2021-49" = true ∧
    specOldEpochSeed ceSeedCatalog ceSeedIds =
      some (baseUrl ++ "z/crawl=CC-MAIN-2020-05/p") ∧
    newestParquetFileOld ceSeedCatalog ceSeedIds =
      some (baseUrl ++ "c/crawl=CC-MAIN-2021-43/p") ∧
    createTableIfNotExists none seedSchemaOf (newestParquetFileOld ceSeedCatalog ceSeedIds) ≠
      (specOldEpochSeed ceSeedCatalog ceSeedIds).map (fun u => ⟨seedSchemaOf u, 0⟩) := by
  decide

/-! ### C9: duplicate/missing tolerance is OLD-only; bad files never abort -/

/-- C9.  In an uninterrupted run with an arbitrary per-file success oracle:
every OLD-destination add carries the allow-missing flag, every
NEW-destination add is strict, every delta file is attempted exactly once in
order regardless of other files' failures (a failing file never aborts the
batch), and the warning log names exactly the files whose addition failed. -/
theorem claim9_tolerance_flags (collinfo : List String) (manifests : String → List String)
    (addOk : String → Bool) (s : St) :
    (runPipeline collinfo manifests addOk none s).attemptsOld =
      (oldDeltaOf collinfo manifests s.oldM s.newM).map (fun u => (u, true)) ∧
    (runPipeline collinfo manifests addOk none s).attemptsNew =
      (newDeltaOf collinfo manifests (oldPhase collinfo manifests addOk none s).manifest
        s.newM).map (fun u => (u, false)) ∧
    (runPipeline collinfo manifests addOk none s).warnings =
      (oldDeltaOf collinfo manifests s.oldM s.newM).filter (fun u => !(addOk u)) ++
      (newDeltaOf collinfo manifests (oldPhase collinfo manifests addOk none s).manifest
        s.newM).filter (fun u => !(addOk u)) := by
  rw [runPipeline_none_eq]
  refine ⟨?_, rfl, ?_⟩
  · rw [oldPhase, ingestLoop_none]
    simp
  · rw [oldPhase, ingestLoop_none]
    simp

/-! ### C10: cancellation during the OLD phase stops the run before NEW -/

/-- C10.  If the cancellation flag is observed before a file during the OLD
phase, the run exits with code 0, never attempts any NEW-destination
addition, leaves the NEW manifest untouched, and does not recompute the
view. -/
theorem claim10_cancel_stops_new (collinfo : List String) (manifests : String → List String)
    (addOk : String → Bool) (cf : Option Nat) (s : St)
    (h : (oldPhase collinfo manifests addOk cf s).stopped = true) :
    (runPipeline collinfo manifests addOk cf s).attemptsNew = [] ∧
    (runPipeline collinfo manifests addOk cf s).newM = s.newM ∧
    (runPipeline collinfo manifests addOk cf s).viewUpdated = false ∧
    (runPipeline collinfo manifests addOk cf s).exitCode = 0 := by
  have hf : flagAt cf (oldPhase collinfo manifests addOk cf s).ctr = true := by
    rw [oldPhase] at h ⊢
    exact ingestLoop_stopped cf addOk true _ _ _ _ _ h
  simp [runPipeline, hf]

/-- C10 witness: the theorem applied to a run whose flag is set from the
first read on, over a catalog with one OLD-range file. -/
theorem claim10_witness :
    (oldPhase c10Collinfo c10Manifests alwaysOk (some 0) ⟨[], []⟩).stopped = true ∧
    ((runPipeline c10Collinfo c10Manifests alwaysOk (some 0) ⟨[], []⟩).attemptsNew = [] ∧
      (runPipeline c10Collinfo c10Manifests alwaysOk (some 0) ⟨[], []⟩).newM =
        (⟨[], []⟩ : St).newM ∧
      (runPipeline c10Collinfo c10Manifests alwaysOk (some 0) ⟨[], []⟩).viewUpdated = false ∧
      (runPipeline c10Collinfo c10Manifests alwaysOk (some 0) ⟨[], []⟩).exitCode = 0) :=
  ⟨by decide,
   claim10_cancel_stops_new c10Collinfo c10Manifests alwaysOk (some 0) ⟨[], []⟩ (by decide)⟩

end CCPipeline
